import Mathlib

/-!
Shallow embedding of the CGM instability-mask pipeline (`src/instability.py`)
and of the metrics layer (`src/metrics.py`).

A glucose series is a `List (Option ℚ)`: `none` models the NaN sentinel
(missing reading), `some x` a finite reading.  Python float arithmetic is
idealised as exact rational arithmetic; `np.sqrt` (needed only for the
standard deviation in the summary metrics) is idealised as `Real.sqrt`.
Functions that can raise a Python exception return `Option`/`Except`,
with `none`/`.error` modelling the raised exception.
-/

namespace CGM

/-- A glucose series: one entry per sampling interval; `none` is NaN. -/
abbrev Series := List (Option ℚ)

/-- The finite (non-NaN) values of a window, in order.  NumPy reductions
that skip NaN (`np.nanvar`, boolean indexing by `np.isfinite`) act on
exactly this list. -/
def finiteVals (w : Series) : List ℚ := w.filterMap id

/-- `np.nanvar(w)`: population variance (ddof = 0) of the finite values of
`w`; `none` when no finite value exists (the caller in
`local_variance_mask` guards this case with `np.any(np.isfinite(w))`). -/
def nanvar (w : Series) : Option ℚ :=
  let xs := finiteVals w
  if xs.length = 0 then none
  else
    let m : ℚ := xs.sum / xs.length
    some ((xs.map (fun x => (x - m) ^ 2)).sum / xs.length)

/-- Trailing window of length `k` ending at index `i`: `arr[i-k+1 : i+1]`. -/
def window (g : Series) (k i : ℕ) : Series := (g.drop (i + 1 - k)).take k

/-- The rolling-variance array `var` of `local_variance_mask`:
`np.full(n, nan)` overwritten at `i ≥ k-1` by `np.nanvar` of the trailing
window whenever that window holds at least one finite value. -/
def rollingVar (g : Series) (k : ℕ) : List (Option ℚ) :=
  (List.range g.length).map (fun i => if i + 1 < k then none else nanvar (window g k i))

/-- Insert into a sorted list, preserving ascending order. -/
def insertSorted (x : ℚ) : List ℚ → List ℚ
  | [] => [x]
  | y :: ys => if x ≤ y then x :: y :: ys else y :: insertSorted x ys

/-- Ascending sort (models NumPy's internal sort for percentiles/median). -/
def sortedAsc (xs : List ℚ) : List ℚ := xs.foldr insertSorted []

/-- `np.nanpercentile(xs, 95)` on a NaN-free array `xs`, with NumPy's
linear interpolation; `none` on the empty array (NumPy warns
"All-NaN slice encountered" and returns NaN rather than raising). -/
def percentile95 (xs : List ℚ) : Option ℚ :=
  if xs.length = 0 then none
  else
    let s := sortedAsc xs
    let r : ℚ := 95 * ((xs.length - 1 : ℕ) : ℚ) / 100
    let lo : ℕ := (⌊r⌋).toNat
    let frac : ℚ := r - (lo : ℚ)
    some (s.getD lo 0 + frac * (s.getD (min (lo + 1) (xs.length - 1)) 0 - s.getD lo 0))

/-- Window length of `local_variance_mask`:
`k = max(1, int(window_min / interval_min))`.  Python's `int()` truncates
the quotient, which for the nonnegative integer parameters used here is
natural-number floor division. -/
def local_variance_k (window_min interval_min : ℕ) : ℕ :=
  max 1 (window_min / interval_min)

/-- Window length of `jitter_mask`: `max(3, int(window_min / interval_min))`. -/
def jitter_k (window_min interval_min : ℕ) : ℕ :=
  max 3 (window_min / interval_min)

/-- Flatline window length of `dropout_flatline_mask`:
`max(2, int(window_min / interval_min))`. -/
def flatline_k (window_min interval_min : ℕ) : ℕ :=
  max 2 (window_min / interval_min)

/-- Gap length bound of `long_nan_run_mask`:
`k_dropout = max(1, int(dropout_min / interval_min))`. -/
def gap_k (dropout_min interval_min : ℕ) : ℕ :=
  max 1 (dropout_min / interval_min)

/-- Lead-in length of `long_nan_run_mask`:
`k_prior = max(0, int(prior_hr * 60 / interval_min))`. -/
def prior_k (prior_hr interval_min : ℕ) : ℕ :=
  max 0 (prior_hr * 60 / interval_min)

/-- `points_per_hr = int(60 / interval_min)` in `drift_window_mask`. -/
def points_per_hr (interval_min : ℕ) : ℕ := 60 / interval_min

/-- `k_drift = max(2, int(drift_duration_hr * points_per_hr))`. -/
def drift_k (drift_duration_hr interval_min : ℕ) : ℕ :=
  max 2 (drift_duration_hr * points_per_hr interval_min)

/-- `k_low = max(2, int(low_duration_hr * points_per_hr))`. -/
def low_k (low_duration_hr interval_min : ℕ) : ℕ :=
  max 2 (low_duration_hr * points_per_hr interval_min)

/-- `local_variance_mask`: rolling variance, adaptive 95th-percentile
threshold when `threshold is None`, flag strictly-greater positions.
`np.where(np.isfinite(var), var > threshold, False)`: a NaN variance or a
NaN threshold never flags. -/
def local_variance_mask (g : Series) (window_min interval_min : ℕ)
    (threshold : Option ℚ) : List Bool :=
  let n := g.length
  let k := local_variance_k window_min interval_min
  if n < k then List.replicate n false
  else
    let var := rollingVar g k
    let thr : Option ℚ :=
      match threshold with
      | some t => some t
      | none => percentile95 (var.filterMap id)
    var.map (fun v =>
      match v, thr with
      | some x, some t => decide (t < x)
      | _, _ => false)

/-- NaN-propagating subtraction on optional values. -/
def optSub : Option ℚ → Option ℚ → Option ℚ
  | some a, some b => some (a - b)
  | _, _ => none

/-- `jump_spike_mask`: `np.abs(np.diff(arr, prepend=arr[0])) > threshold`.
On the empty series `arr[0]` raises IndexError, modelled as `none`.
A NaN difference compares False. -/
def jump_spike_mask (g : Series) (threshold : ℚ) : Option (List Bool) :=
  match g with
  | [] => none
  | v0 :: _ =>
    some ((List.range g.length).map (fun i =>
      let d := if i = 0 then optSub v0 v0 else optSub (g.getD i none) (g.getD (i - 1) none)
      match d with
      | some x => decide (threshold < |x|)
      | none => false))

/-- First differences `np.diff(xs)` of a finite window. -/
def diffs (xs : List ℚ) : List ℚ := List.zipWith (fun a b => a - b) xs.tail xs

/-- `np.sum((d[1:] * d[:-1]) < 0)`: count of strict sign reversals between
consecutive first differences. -/
def signChanges (d : List ℚ) : ℕ :=
  (List.zipWith (fun a b => a * b) d.tail d).countP (fun p => decide (p < 0))

/-- All entries of the window are finite (`np.all(np.isfinite(w))`). -/
def allFinite (w : Series) : Bool := w.all (fun v => v.isSome)

/-- Loop body test of `jitter_mask` for the window ending at `i`. -/
def jitterQualifies (g : Series) (k min_sign_changes i : ℕ) : Bool :=
  let w := window g k i
  if allFinite w then
    let d := diffs (finiteVals w)
    if d.length < 2 then false
    else decide (min_sign_changes ≤ signChanges d)
  else false

/-- The write-True-across-a-window loops (`out[i-k+1 : i+1] = True` for
each qualifying `i` with `k-1 ≤ i < n`): position `j` ends up True exactly
when some qualifying trailing window covers it. -/
def windowFill (n k : ℕ) (q : ℕ → Bool) : List Bool :=
  (List.range n).map (fun j =>
    (List.range n).any (fun i =>
      decide (k ≤ i + 1) && q i && decide (i + 1 ≤ j + k) && decide (j ≤ i)))

/-- `jitter_mask`: flag whole windows with at least `min_sign_changes`
direction reversals among first differences, skipping windows with any
missing value. -/
def jitter_mask (g : Series) (window_min min_sign_changes interval_min : ℕ) : List Bool :=
  let n := g.length
  let k := jitter_k window_min interval_min
  if n < k then List.replicate n false
  else windowFill n k (fun i => jitterQualifies g k min_sign_changes i)

/-- Loop body test of the monotonic-drift part of `drift_window_mask`:
window all finite and first differences all `≥ 0` or all `≤ 0`. -/
def monoQualifies (g : Series) (k i : ℕ) : Bool :=
  let w := window g k i
  allFinite w &&
    (let d := diffs (finiteVals w)
     d.all (fun x => decide (0 ≤ x)) || d.all (fun x => decide (x ≤ 0)))

/-- Monotonic-drift sub-flags of `drift_window_mask` (the `if n >= k_drift`
guarded window loop). -/
def mono_flags (g : Series) (k_drift : ℕ) : List Bool :=
  if g.length < k_drift then List.replicate g.length false
  else windowFill g.length k_drift (fun i => monoQualifies g k_drift i)

/-- The run-tracking scan shared by `drift_window_mask` (sustained low)
and `long_nan_run_mask`: iterate `i = 0 .. n` keeping the pending run
start (`run_start`), closing a run `[s, i)` whenever the condition stops
holding or the series ends.  Returns the closed runs as
`(start, end‑exclusive)` pairs in order. -/
def runsAux : List Bool → ℕ → Option ℕ → List (ℕ × ℕ)
  | [], _, none => []
  | [], i, some s => [(s, i)]
  | b :: rest, i, none =>
    if b then runsAux rest (i + 1) (some i) else runsAux rest (i + 1) none
  | b :: rest, i, some s =>
    if b then runsAux rest (i + 1) (some s) else (s, i) :: runsAux rest (i + 1) none

/-- Maximal runs of `true` in a boolean list, as produced by the scan. -/
def runs (l : List Bool) : List (ℕ × ℕ) := runsAux l 0 none

/-- `below = (arr < low_threshold) & np.isfinite(arr)`. -/
def belowMask (g : Series) (low : ℚ) : List Bool :=
  g.map (fun v => match v with | some x => decide (x < low) | none => false)

/-- Sustained-low sub-flags of `drift_window_mask`: for each maximal run
of below-threshold finite values, `out[run_start : run_end] = True` when
`run_len > k_low` (strict).  (The `if np.any(below)` guard in the source
is a no-op: with no below positions there are no runs.) -/
def sustained_low_flags (g : Series) (low : ℚ) (k_low : ℕ) : List Bool :=
  (List.range g.length).map (fun j =>
    (runs (belowMask g low)).any (fun p =>
      decide (k_low < p.2 - p.1) && (decide (p.1 ≤ j) && decide (j < p.2))))

/-- Elementwise OR of two masks (`|` on boolean arrays). -/
def zipOr (a b : List Bool) : List Bool := List.zipWith (fun x y => x || y) a b

/-- `drift_window_mask`: monotonic-drift flags OR'd with sustained-low
flags (the source fills both into the same `out` array). -/
def drift_window_mask (g : Series) (drift_duration_hr : ℕ) (low_threshold : ℚ)
    (low_duration_hr interval_min : ℕ) : List Bool :=
  zipOr (mono_flags g (drift_k drift_duration_hr interval_min))
        (sustained_low_flags g low_threshold (low_k low_duration_hr interval_min))

/-- `np.nanmax(w) == np.nanmin(w)` on an all-finite window: all values equal. -/
def allEqual (xs : List ℚ) : Bool :=
  match xs with
  | [] => true
  | x :: rest => rest.all (fun y => decide (y = x))

/-- Loop body test of the flatline part of `dropout_flatline_mask`. -/
def flatlineQualifies (g : Series) (k i : ℕ) : Bool :=
  let w := window g k i
  allFinite w && allEqual (finiteVals w)

/-- `dropout_flatline_mask`: flatline windows (`if n >= k` guarded loop)
OR'd with `~np.isfinite(arr)` (every NaN flagged). -/
def dropout_flatline_mask (g : Series) (window_min interval_min : ℕ) : List Bool :=
  let n := g.length
  let k := flatline_k window_min interval_min
  let flat := if n < k then List.replicate n false
              else windowFill n k (fun i => flatlineQualifies g k i)
  zipOr flat (g.map (fun v => v.isNone))

/-- `long_nan_run_mask`: for each maximal NaN run of length `≥ k_dropout`,
flag the run and the (clipped) `k_prior` positions before it.  Clipping
`max(0, run_start - k_prior)` is natural-number truncated subtraction. -/
def long_nan_run_mask (g : Series) (dropout_min prior_hr interval_min : ℕ) : List Bool :=
  let k_gap := gap_k dropout_min interval_min
  let k_prior := prior_k prior_hr interval_min
  (List.range g.length).map (fun j =>
    (runs (g.map (fun v => v.isNone))).any (fun p =>
      decide (k_gap ≤ p.2 - p.1) &&
        ((decide (p.1 ≤ j) && decide (j < p.2)) ||
         (decide (p.1 - k_prior ≤ j) && decide (j < p.1)))))

/-- `np.resize(b, size)` for a boolean array shorter than `size`: repeats
the array cyclically to the requested length; an empty array is extended
with zeros (False). -/
def np_resize (b : List Bool) (size : ℕ) : List Bool :=
  if b.length = 0 then List.replicate size false
  else (List.range size).map (fun i => b.getD (i % b.length) false)

/-- The combinator's `pad`: `np.resize(b, size)` when shorter, else
truncate to the first `size` elements. -/
def pad (b : List Bool) (size : ℕ) : List Bool :=
  if b.length < size then np_resize b size else b.take size

/-- `instability_mask`: run the six detectors (the variance detector is
called with `window_min=30` hard-coded), align each mask to the input
length with `pad`, and OR them left to right.  `none` models the
IndexError raised by `jump_spike_mask` on the empty series — the only
detector call that can raise. -/
def instability_mask (g : Series) (variance_threshold : Option ℚ) (jump_threshold : ℚ)
    (jitter_window_min min_sign_changes drift_duration_hr : ℕ) (low_threshold : ℚ)
    (low_duration_hr flatline_window_min dropout_min prior_hr interval_min : ℕ) :
    Option (List Bool) :=
  match jump_spike_mask g jump_threshold with
  | none => none
  | some m2 =>
    let n := g.length
    let m1 := local_variance_mask g 30 interval_min variance_threshold
    let m3 := jitter_mask g jitter_window_min min_sign_changes interval_min
    let m4 := drift_window_mask g drift_duration_hr low_threshold low_duration_hr interval_min
    let m5 := dropout_flatline_mask g flatline_window_min interval_min
    let m6 := long_nan_run_mask g dropout_min prior_hr interval_min
    some (zipOr (zipOr (zipOr (zipOr (zipOr (pad m1 n) (pad m2 n)) (pad m3 n))
      (pad m4 n)) (pad m5 n)) (pad m6 n))

/-! Metrics layer (`src/metrics.py`).  `Except String` models the raised
`ValueError`; in the payload, `none` models a NaN result. -/

/-- Boolean test for the error constructor of `Except`. -/
def isErr {ε α : Type} : Except ε α → Bool
  | .error _ => true
  | .ok _ => false

/-- `_masked_series`: returns the `use` vector (`~mask`, or all-True when
no mask); raises ValueError when the mask length differs. -/
def masked_series (g : Series) (mask : Option (List Bool)) : Except String (List Bool) :=
  match mask with
  | none => .ok (List.replicate g.length true)
  | some m =>
    if m.length = g.length then .ok (m.map (fun b => !b))
    else .error "mask length must match glucose length"

/-- `np.sum(use)` for a boolean vector. -/
def countTrue (l : List Bool) : ℕ := l.count true

/-- `np.any(use)`. -/
def anyTrue (l : List Bool) : Bool := l.any (fun b => b)

/-- `np.sum(np.isfinite(arr) & use)` paired positionwise. -/
def validCount (g : Series) (use : List Bool) : ℕ :=
  (g.zip use).countP (fun p => p.2 && p.1.isSome)

/-- `compute_TIR`: fraction of used time with `low ≤ value ≤ high`.
NaN comparisons are False, so a missing value is never in range. -/
def compute_TIR (g : Series) (mask : Option (List Bool)) (low high : ℚ) :
    Except String (Option ℚ) :=
  match masked_series g mask with
  | .error e => .error e
  | .ok use =>
    if !anyTrue use then .ok none
    else if validCount g use = 0 then .ok none
    else
      .ok (some (((g.zip use).countP (fun p =>
        (match p.1 with
         | some x => decide (low ≤ x) && decide (x ≤ high)
         | none => false) && p.2) : ℚ) / (countTrue use : ℚ)))

/-- `compute_TBR`: fraction of used time with `value < low`; no
finiteness gate beyond the NaN comparison itself. -/
def compute_TBR (g : Series) (mask : Option (List Bool)) (low : ℚ) :
    Except String (Option ℚ) :=
  match masked_series g mask with
  | .error e => .error e
  | .ok use =>
    if !anyTrue use then .ok none
    else
      .ok (some (((g.zip use).countP (fun p =>
        (match p.1 with
         | some x => decide (x < low)
         | none => false) && p.2) : ℚ) / (countTrue use : ℚ)))

/-- `compute_TAR`: fraction of used time with `value > high`. -/
def compute_TAR (g : Series) (mask : Option (List Bool)) (high : ℚ) :
    Except String (Option ℚ) :=
  match masked_series g mask with
  | .error e => .error e
  | .ok use =>
    if !anyTrue use then .ok none
    else
      .ok (some (((g.zip use).countP (fun p =>
        (match p.1 with
         | some x => decide (high < x)
         | none => false) && p.2) : ℚ) / (countTrue use : ℚ)))

/-- `arr[valid]`: the used, finite values, in order. -/
def validVals (g : Series) (use : List Bool) : List ℚ :=
  (g.zip use).filterMap (fun p => if p.2 then p.1 else none)

/-- `compute_GMI`: `3.31 + 0.02392 * mean(arr[valid])`, NaN when no valid
position. -/
def compute_GMI (g : Series) (mask : Option (List Bool)) : Except String (Option ℚ) :=
  match masked_series g mask with
  | .error e => .error e
  | .ok use =>
    let xs := validVals g use
    if xs.length = 0 then .ok none
    else .ok (some (331 / 100 + 2392 / 100000 * (xs.sum / (xs.length : ℚ))))

/-- The dict returned by `compute_summary_metrics`; each field may be the
NaN sentinel (`none`). -/
structure SummaryStats where
  mean : Option ℚ
  sd : Option ℝ
  cv : Option ℝ
  median : Option ℚ
  smin : Option ℚ
  smax : Option ℚ

/-- Summary statistics over the nonempty list of used finite values:
mean; `np.std(x, ddof=1)` (NaN when fewer than two values, since the
degrees of freedom are zero); `cv = sd/mean` (NaN when mean is 0, NaN
when sd is NaN); median (mean of the two middle order statistics for even
length); min; max. -/
noncomputable def summaryOf (xs : List ℚ) : SummaryStats :=
  let m := xs.length
  let mean : ℚ := xs.sum / m
  let sd : Option ℝ :=
    if 2 ≤ m then
      some (Real.sqrt (((xs.map (fun x => ((x : ℝ) - (mean : ℝ)) ^ 2)).sum) / ((m - 1 : ℕ) : ℝ)))
    else none
  let cv : Option ℝ :=
    if mean = 0 then none
    else match sd with
         | some s => some (s / (mean : ℝ))
         | none => none
  let s := sortedAsc xs
  let med : ℚ :=
    if m % 2 = 1 then s.getD (m / 2) 0
    else (s.getD (m / 2 - 1) 0 + s.getD (m / 2) 0) / 2
  ⟨some mean, sd, cv, some med, some (s.getD 0 0), some (s.getD (m - 1) 0)⟩

/-- `compute_summary_metrics`: all-NaN dict when no valid position, else
the summary statistics of the used finite values. -/
noncomputable def compute_summary_metrics (g : Series) (mask : Option (List Bool)) :
    Except String SummaryStats :=
  match masked_series g mask with
  | .error e => .error e
  | .ok use =>
    let xs := validVals g use
    if xs.length = 0 then .ok ⟨none, none, none, none, none, none⟩
    else .ok (summaryOf xs)

/-! Length and indexing lemmas for the detector outputs. -/

theorem length_windowFill (n k : ℕ) (q : ℕ → Bool) : (windowFill n k q).length = n := by
  simp [windowFill]

theorem length_rollingVar (g : Series) (k : ℕ) : (rollingVar g k).length = g.length := by
  simp [rollingVar]

theorem length_local_variance_mask (g : Series) (w i : ℕ) (t : Option ℚ) :
    (local_variance_mask g w i t).length = g.length := by
  simp only [local_variance_mask]
  split
  · simp
  · simp [length_rollingVar]

theorem length_jitter_mask (g : Series) (w m i : ℕ) :
    (jitter_mask g w m i).length = g.length := by
  simp only [jitter_mask]
  split
  · simp
  · simp [length_windowFill]

theorem length_mono_flags (g : Series) (k : ℕ) : (mono_flags g k).length = g.length := by
  simp only [mono_flags]
  split
  · simp
  · simp [length_windowFill]

theorem length_sustained_low_flags (g : Series) (low : ℚ) (k : ℕ) :
    (sustained_low_flags g low k).length = g.length := by
  simp [sustained_low_flags]

theorem length_zipOr (a b : List Bool) : (zipOr a b).length = min a.length b.length := by
  simp [zipOr]

theorem length_drift_window_mask (g : Series) (d : ℕ) (low : ℚ) (ld i : ℕ) :
    (drift_window_mask g d low ld i).length = g.length := by
  simp [drift_window_mask, length_zipOr, length_mono_flags, length_sustained_low_flags]

theorem length_dropout_flatline_mask (g : Series) (w i : ℕ) :
    (dropout_flatline_mask g w i).length = g.length := by
  simp only [dropout_flatline_mask, length_zipOr, List.length_map]
  split <;> simp [length_windowFill]

theorem length_long_nan_run_mask (g : Series) (d p i : ℕ) :
    (long_nan_run_mask g d p i).length = g.length := by
  simp [long_nan_run_mask]

theorem length_np_resize (b : List Bool) (size : ℕ) : (np_resize b size).length = size := by
  simp only [np_resize]
  split <;> simp

theorem length_pad (b : List Bool) (n : ℕ) : (pad b n).length = n := by
  simp only [pad]
  split
  · exact length_np_resize b n
  · simp; omega

theorem pad_eq_self (b : List Bool) (n : ℕ) (h : b.length = n) : pad b n = b := by
  simp only [pad]
  rw [if_neg (by omega)]
  subst h
  exact List.take_length b

theorem getD_rangeMap {α : Type} (f : ℕ → α) (n j : ℕ) (d : α) (h : j < n) :
    ((List.range n).map f).getD j d = f j := by
  rw [List.getD_eq_getElem _ _ (by simpa using h)]
  simp

/-! C2: the combinator's length-alignment policy. -/

/-- C2 counterexample: `pad` extends a short mask by cyclic repetition of
the whole mask (`np.resize`), not by repeating its last element:
resizing `[false, true]` to length 4 yields `[false, true, false, true]`,
whereas repeating the last element would yield `[false, true, true, true]`. -/
theorem pad_cyclic_counterexample :
    pad [false, true] 4 = [false, true, false, true] ∧
    pad [false, true] 4 ≠ [false, true, true, true] := by
  constructor <;> decide

/-- C2 (amended): in the combinator's length alignment, a detector mask
shorter than the input length n is extended to length n by cyclic
repetition of the whole mask — numpy resize semantics, position j of the
padded mask holding element j mod len of a nonempty short mask, and an
empty mask zero-filling — and a mask of length at least n is truncated to
its first n elements, before the elementwise OR. -/
theorem pad_alignment_policy (b : List Bool) (n j : ℕ) (hj : j < n) :
    (b.length < n → b ≠ [] → (pad b n).getD j false = b.getD (j % b.length) false) ∧
    (b = [] → pad b n = List.replicate n false) ∧
    (n ≤ b.length → pad b n = b.take n) := by
  refine ⟨?_, ?_, ?_⟩
  · intro h hne
    simp only [pad, if_pos h, np_resize]
    rw [if_neg (by simpa using hne)]
    exact getD_rangeMap _ n j false hj
  · intro h
    subst h
    simp only [pad, np_resize]
    rcases Nat.eq_zero_or_pos n with h0 | h0
    · subst h0; simp
    · simp [h0]
  · intro h
    simp [pad, Nat.not_lt.mpr h]

/-- Witness for the C2 amended theorem at a concrete short mask. -/
theorem pad_alignment_policy_witness :
    (pad [false, true] 4).getD 2 false = [false, true].getD (2 % [false, true].length) false :=
  (pad_alignment_policy [false, true] 4 2 (by decide)).1 (by decide) (by decide)

/-! C4: window lengths truncate, they do not round. -/

/-- C4 counterexample: for a 33-minute window at a 5-minute interval the
code's window length `max(1, int(33 / 5))` is 6, while the claimed
`max(1, round(33 / 5))` is 7. -/
theorem window_len_not_rounded :
    (local_variance_k 33 5 : ℤ) = 6 ∧ (max 1 (round ((33 : ℚ) / 5)) : ℤ) = 7 := by
  constructor
  · decide
  · norm_num [round_eq]

/-- C4 (amended): every windowed detector computes its window length as
the detector-specific floor bound maximized with the duration divided by
the sampling interval truncated toward zero (floor, as Python int()
does), not rounded to nearest; the drift detector first truncates
60/interval to whole points per hour and then multiplies by the duration
in hours.  In particular 33/5 gives window length 6, not 7. -/
theorem window_len_truncates (w i d : ℕ) :
    local_variance_k w i = max 1 ⌊(w : ℚ) / (i : ℚ)⌋₊ ∧
    jitter_k w i = max 3 ⌊(w : ℚ) / (i : ℚ)⌋₊ ∧
    flatline_k w i = max 2 ⌊(w : ℚ) / (i : ℚ)⌋₊ ∧
    gap_k w i = max 1 ⌊(w : ℚ) / (i : ℚ)⌋₊ ∧
    prior_k w i = max 0 ⌊((w * 60 : ℕ) : ℚ) / (i : ℚ)⌋₊ ∧
    drift_k d i = max 2 (d * ⌊(60 : ℚ) / (i : ℚ)⌋₊) ∧
    low_k d i = max 2 (d * ⌊(60 : ℚ) / (i : ℚ)⌋₊) ∧
    local_variance_k 33 5 = 6 := by
  have h : ∀ a b : ℕ, ⌊(a : ℚ) / (b : ℚ)⌋₊ = a / b := by
    intro a b
    rw [Nat.floor_div_nat, Nat.floor_natCast]
  have h60 : ((60 : ℚ)) = ((60 : ℕ) : ℚ) := by norm_num
  refine ⟨by simp [local_variance_k, h], by simp [jitter_k, h], by simp [flatline_k, h],
    by simp [gap_k, h], by rw [h (w * 60) i]; simp [prior_k], ?_, ?_, by decide⟩
  · rw [h60, h]; simp [drift_k, points_per_hr]
  · rw [h60, h]; simp [low_k, points_per_hr]

/-! C3: the degenerate empty-percentile case of the variance detector. -/

/-- C3: with `threshold=None`, whenever the series is at least one window
long and no trailing window of length k contains a finite value (for
example an all-NaN series), every rolling variance is NaN, the adaptive
percentile is taken over an empty set and is NaN, and `var > NaN` is
False everywhere: the detector returns an all-False mask of length n
without raising. -/
theorem variance_allnan_allfalse (g : Series) (w i : ℕ)
    (hk : local_variance_k w i ≤ g.length)
    (hwin : ∀ j, j < g.length → local_variance_k w i ≤ j + 1 →
      finiteVals (window g (local_variance_k w i) j) = []) :
    local_variance_mask g w i none = List.replicate g.length false := by
  set k := local_variance_k w i with hkdef
  have hvar : ∀ v ∈ rollingVar g k, v = none := by
    intro v hv
    simp only [rollingVar, List.mem_map, List.mem_range] at hv
    obtain ⟨j, hj, rfl⟩ := hv
    split
    · rfl
    · rename_i hge
      simp [nanvar, hwin j hj (by omega)]
  have hfm : (rollingVar g k).filterMap id = [] := by
    rw [List.filterMap_eq_nil_iff]
    intro v hv
    rw [hvar v hv]
    rfl
  simp only [local_variance_mask, ← hkdef, if_neg (Nat.not_lt.mpr hk), hfm]
  have hp : percentile95 [] = none := by simp [percentile95]
  rw [hp]
  rw [List.eq_replicate_iff]
  constructor
  · simp [length_rollingVar]
  · intro b hb
    simp only [List.mem_map] at hb
    obtain ⟨v, _, rfl⟩ := hb
    cases v <;> rfl

/-- Witness for C3 on the all-NaN series of one full default window. -/
theorem variance_allnan_allfalse_witness :
    local_variance_mask (List.replicate 6 none) 30 5 none = List.replicate 6 false :=
  variance_allnan_allfalse (List.replicate 6 none) 30 5 (by decide) (by decide)

/-! C1: combined mask length; the empty series raises. -/

/-- C1 counterexample: on the empty series the combinator does not return
a mask at all: `jump_spike_mask` evaluates `arr[0]` for its prepend and
raises IndexError (modelled as `none`), which propagates out of
`instability_mask`. -/
theorem instability_mask_empty_raises :
    instability_mask [] none 20 30 2 24 70 8 30 30 1 5 = none := rfl

/-- C1 (amended): for every one-dimensional series of length n ≥ 1 and
any parameters, `instability_mask` returns without error a boolean mask
whose length equals n; on the empty series it instead raises, via the
spike detector's first-element prepend. -/
theorem instability_mask_length (g : Series) (vt : Option ℚ) (jt : ℚ) (jw ms dd : ℕ)
    (lt : ℚ) (ld fw dm ph im : ℕ) (h : g ≠ []) :
    ∃ m, instability_mask g vt jt jw ms dd lt ld fw dm ph im = some m ∧
      m.length = g.length := by
  obtain ⟨v0, rest, rfl⟩ := List.exists_cons_of_ne_nil h
  refine ⟨_, rfl, ?_⟩
  simp [length_zipOr, length_pad]

/-- Witness for the C1 amended theorem on a singleton series. -/
theorem instability_mask_length_witness :
    ∃ m, instability_mask [some 100] none 20 30 2 24 70 8 30 30 1 5 = some m ∧
      m.length = 1 :=
  instability_mask_length [some 100] none 20 30 2 24 70 8 30 30 1 5 (by simp)

/-! C10: the combined mask covers every missing reading. -/

theorem getD_true_lt_length (b : List Bool) (j : ℕ) (h : b.getD j false = true) :
    j < b.length := by
  by_contra hge
  rw [List.getD_eq_default _ _ (by omega)] at h
  exact Bool.false_ne_true h

theorem zipOr_getD_left (a b : List Bool) (j : ℕ) (ha : a.getD j false = true)
    (hjb : j < b.length) : (zipOr a b).getD j false = true := by
  have hja := getD_true_lt_length a j ha
  have hj : j < (zipOr a b).length := by
    rw [length_zipOr]; omega
  rw [List.getD_eq_getElem _ _ hj]
  rw [List.getD_eq_getElem _ _ hja] at ha
  simp [zipOr, ha]

theorem zipOr_getD_right (a b : List Bool) (j : ℕ) (hb : b.getD j false = true)
    (hja : j < a.length) : (zipOr a b).getD j false = true := by
  have hjb := getD_true_lt_length b j hb
  have hj : j < (zipOr a b).length := by
    rw [length_zipOr]; omega
  rw [List.getD_eq_getElem _ _ hj]
  rw [List.getD_eq_getElem _ _ hjb] at hb
  simp [zipOr, hb]

/-- The dropout sub-flag of `dropout_flatline_mask` marks every NaN. -/
theorem dropout_flatline_mask_nan (g : Series) (w i j : ℕ) (hj : j < g.length)
    (hnan : g.getD j (some 0) = none) :
    (dropout_flatline_mask g w i).getD j false = true := by
  simp only [dropout_flatline_mask]
  apply zipOr_getD_right
  · rw [List.getD_eq_getElem _ _ (by simpa using hj)]
    rw [List.getD_eq_getElem _ _ hj] at hnan
    simp [hnan]
  · split <;> simp [length_windowFill, hj]

/-- C10: for any series and parameters, the combined mask returned by
`instability_mask` is True at every index whose value is missing: the
dropout sub-flag of `dropout_flatline_mask` marks every NaN, survives
`pad` (all detector masks already have length n), and OR only adds. -/
theorem mask_covers_missing (g : Series) (vt : Option ℚ) (jt : ℚ) (jw ms dd : ℕ)
    (lt : ℚ) (ld fw dm ph im : ℕ) (j : ℕ) (hj : j < g.length)
    (hnan : g.getD j (some 0) = none) :
    ∃ m, instability_mask g vt jt jw ms dd lt ld fw dm ph im = some m ∧
      m.getD j false = true := by
  have hne : g ≠ [] := by
    intro h
    subst h
    simp at hj
  obtain ⟨v0, rest, rfl⟩ := List.exists_cons_of_ne_nil hne
  refine ⟨_, rfl, ?_⟩
  set g := v0 :: rest with hg
  set n := g.length with hn
  have h5 : (pad (dropout_flatline_mask g fw im) n).getD j false = true := by
    rw [pad_eq_self _ _ (length_dropout_flatline_mask g fw im)]
    exact dropout_flatline_mask_nan g fw im j hj hnan
  apply zipOr_getD_left
  · apply zipOr_getD_right _ _ _ h5
    simp [length_zipOr, length_pad, hj]
  · rw [length_pad]
    exact hj

/-- Witness for C10 on the singleton all-NaN series. -/
theorem mask_covers_missing_witness :
    ∃ m, instability_mask [none] none 20 30 2 24 70 8 30 30 1 5 = some m ∧
      m.getD 0 false = true :=
  mask_covers_missing [none] none 20 30 2 24 70 8 30 30 1 5 0 (by simp) (by simp)

/-! C9: the length-mismatch error of the metrics layer. -/

deriving instance DecidableEq for Except

theorem isErr_ite {α : Type} (c : Prop) [Decidable c] (a b : Except String α) :
    isErr (if c then a else b) = if c then isErr a else isErr b := by
  split <;> rfl

theorem isErr_ok {α : Type} (a : α) : isErr (Except.ok a : Except String α) = false := rfl

theorem isErr_error {α : Type} (e : String) :
    isErr (Except.error e : Except String α) = true := rfl

theorem masked_series_ok (g : Series) (m : List Bool) (h : m.length = g.length) :
    masked_series g (some m) = .ok (m.map (fun b => !b)) := by
  simp [masked_series, h]

theorem masked_series_err (g : Series) (m : List Bool) (h : m.length ≠ g.length) :
    masked_series g (some m) = .error "mask length must match glucose length" := by
  simp [masked_series, h]

/-- C9: each of the five metrics calls fails with the length-mismatch
error exactly when a mask is supplied whose length differs from the
series length; with no mask or an equal-length mask the call returns a
value (possibly the NaN sentinel), never an error. -/
theorem metrics_length_mismatch_iff (g : Series) (mask : Option (List Bool))
    (low high : ℚ) :
    (isErr (compute_TIR g mask low high) = true ↔
      ∃ m, mask = some m ∧ m.length ≠ g.length) ∧
    (isErr (compute_TBR g mask low) = true ↔
      ∃ m, mask = some m ∧ m.length ≠ g.length) ∧
    (isErr (compute_TAR g mask high) = true ↔
      ∃ m, mask = some m ∧ m.length ≠ g.length) ∧
    (isErr (compute_GMI g mask) = true ↔
      ∃ m, mask = some m ∧ m.length ≠ g.length) ∧
    (isErr (compute_summary_metrics g mask) = true ↔
      ∃ m, mask = some m ∧ m.length ≠ g.length) := by
  cases mask with
  | none =>
    refine ⟨?_, ?_, ?_, ?_, ?_⟩ <;>
      simp [compute_TIR, compute_TBR, compute_TAR, compute_GMI, compute_summary_metrics,
        masked_series, isErr_ite, isErr_ok, isErr_error]
  | some m =>
    by_cases h : m.length = g.length
    · refine ⟨?_, ?_, ?_, ?_, ?_⟩ <;>
        simp [compute_TIR, compute_TBR, compute_TAR, compute_GMI, compute_summary_metrics,
          masked_series_ok g m h, isErr_ite, isErr_ok, isErr_error, h]
    · refine ⟨?_, ?_, ?_, ?_, ?_⟩ <;>
        simp [compute_TIR, compute_TBR, compute_TAR, compute_GMI, compute_summary_metrics,
          masked_series_err g m h, isErr_ok, isErr_error, h]

/-! C7 and C8: the TIR formula and the absence of a finiteness gate in TBR. -/

/-- The `use` vector (positions not masked) for an accepted mask. -/
def usableOf (g : Series) (mask : Option (List Bool)) : List Bool :=
  match mask with
  | none => List.replicate g.length true
  | some m => m.map (fun b => !b)

/-- Modelled from the spec's TIR formula (§4.8), for comparison with the
code: usable = not-masked positions, valid = usable and finite; NaN when
no usable position and NaN when no valid position; otherwise
`count(valid and low ≤ value ≤ high) / count(usable)` with an explicit
finiteness conjunct. -/
def TIR_spec (g : Series) (use : List Bool) (low high : ℚ) : Option ℚ :=
  if countTrue use = 0 then none
  else if validCount g use = 0 then none
  else some ((((g.zip use).countP (fun p =>
    p.2 && p.1.isSome && (match p.1 with
      | some x => decide (low ≤ x) && decide (x ≤ high)
      | none => false))) : ℚ) / (countTrue use : ℚ))

theorem anyTrue_eq_false_iff (l : List Bool) : anyTrue l = false ↔ countTrue l = 0 := by
  simp only [anyTrue, countTrue, List.any_eq_false, List.count_eq_zero]
  constructor
  · intro h ht
    exact absurd rfl (h true ht)
  · intro h b hb
    intro hbt
    subst hbt
    exact h hb

theorem masked_series_eq_usable (g : Series) (mask : Option (List Bool))
    (h : ∀ m, mask = some m → m.length = g.length) :
    masked_series g mask = .ok (usableOf g mask) := by
  cases mask with
  | none => rfl
  | some m => simp [masked_series, usableOf, h m rfl]

/-- C7: `compute_TIR` returns exactly the spec's formula — the count of
usable, finite, in-range positions over the count of usable positions,
NaN when there is no usable position and NaN when there is no finite
usable position — and on [50, 100, 200] with bounds 70–180 and no mask it
returns 1/3. -/
theorem tir_matches_spec :
    (∀ (g : Series) (mask : Option (List Bool)) (low high : ℚ),
      (∀ m, mask = some m → m.length = g.length) →
      compute_TIR g mask low high = .ok (TIR_spec g (usableOf g mask) low high)) ∧
    compute_TIR [some 50, some 100, some 200] none 70 180 = .ok (some (1 / 3)) := by
  have hconc : compute_TIR [some 50, some 100, some 200] none 70 180 = .ok (some (1 / 3)) := by
    have h1 : ([some (50 : ℚ), some 100, some 200].zip
        (List.replicate ([some (50 : ℚ), some 100, some 200]).length true)).countP (fun p =>
          (match p.1 with
           | some x => decide ((70 : ℚ) ≤ x) && decide (x ≤ (180 : ℚ))
           | none => false) && p.2) = 1 := by decide
    simp only [compute_TIR, masked_series]
    rw [if_neg (by decide), if_neg (by decide), h1]
    norm_num [countTrue]
  refine ⟨?_, hconc⟩
  · intro g mask low high h
    simp only [compute_TIR, masked_series_eq_usable g mask h]
    set use := usableOf g mask
    by_cases h1 : countTrue use = 0
    · rw [TIR_spec, if_pos h1]
      have : anyTrue use = false := (anyTrue_eq_false_iff use).mpr h1
      simp [this]
    · have hany : anyTrue use = true := by
        cases hval : anyTrue use
        · exact absurd ((anyTrue_eq_false_iff use).mp hval) h1
        · rfl
      rw [TIR_spec, if_neg h1]
      by_cases h2 : validCount g use = 0
      · simp [hany, h2]
      · have hcnt : (g.zip use).countP (fun p =>
            (match p.1 with
             | some x => decide (low ≤ x) && decide (x ≤ high)
             | none => false) && p.2) =
            (g.zip use).countP (fun p =>
            p.2 && p.1.isSome && (match p.1 with
              | some x => decide (low ≤ x) && decide (x ≤ high)
              | none => false)) := by
          apply List.countP_congr
          intro p _
          rcases p with ⟨v, u⟩
          cases v <;> cases u <;> simp
        simp [hany, h2, hcnt]

/-- Witness for C7 on a concrete unmasked series. -/
theorem tir_matches_spec_witness :
    compute_TIR [some 100] none 70 180 =
      .ok (TIR_spec [some 100] (usableOf [some 100] none) 70 180) :=
  tir_matches_spec.1 [some 100] none 70 180 (by intro m h; cases h)

/-- C8: for every series and accepted mask with at least one usable
position, `compute_TBR` returns the count of usable below-range
positions over the count of usable positions, with no separate
finiteness gate: a NaN value simply compares False against the bound.
In particular on an all-NaN series it returns 0 while `compute_TIR`
returns NaN. -/
theorem tbr_no_finite_gate :
    (∀ (g : Series) (mask : Option (List Bool)) (low : ℚ),
      (∀ m, mask = some m → m.length = g.length) →
      anyTrue (usableOf g mask) = true →
      compute_TBR g mask low = .ok (some
        ((((g.zip (usableOf g mask)).countP (fun p =>
          p.2 && (match p.1 with
            | some x => decide (x < low)
            | none => false))) : ℚ) / (countTrue (usableOf g mask) : ℚ)))) ∧
    compute_TBR [none, none] none 70 = .ok (some 0) ∧
    compute_TIR [none, none] none 70 180 = .ok none := by
  have htbr : compute_TBR [(none : Option ℚ), none] none 70 = .ok (some 0) := by
    have h1 : ([(none : Option ℚ), none].zip
        (List.replicate ([(none : Option ℚ), none]).length true)).countP (fun p =>
          (match p.1 with
           | some x => decide (x < (70 : ℚ))
           | none => false) && p.2) = 0 := by decide
    simp only [compute_TBR, masked_series]
    rw [if_neg (by decide), h1]
    norm_num [countTrue]
  have htir : compute_TIR [(none : Option ℚ), none] none 70 180 = .ok none := by
    simp only [compute_TIR, masked_series]
    rw [if_neg (by decide), if_pos (by decide)]
  refine ⟨?_, htbr, htir⟩
  intro g mask low h hany
  simp only [compute_TBR, masked_series_eq_usable g mask h]
  have hcnt : (g.zip (usableOf g mask)).countP (fun p =>
      (match p.1 with
       | some x => decide (x < low)
       | none => false) && p.2) =
      (g.zip (usableOf g mask)).countP (fun p =>
      p.2 && (match p.1 with
        | some x => decide (x < low)
        | none => false)) := by
    apply List.countP_congr
    intro p _
    rcases p with ⟨v, u⟩
    cases v <;> cases u <;> simp
  simp [hany, hcnt]

/-- Witness for C8 on the all-NaN two-element series. -/
theorem tbr_no_finite_gate_witness :
    compute_TBR [(none : Option ℚ), none] none 70 = .ok (some
      (((([(none : Option ℚ), none].zip
          (usableOf [(none : Option ℚ), none] none)).countP (fun p =>
        p.2 && (match p.1 with
          | some x => decide (x < (70 : ℚ))
          | none => false))) : ℚ) /
        (countTrue (usableOf [(none : Option ℚ), none] none) : ℚ))) :=
  tbr_no_finite_gate.1 [none, none] none 70 (by intro m h; cases h) (by decide)

/-! Characterization of the run-tracking scan: `runs` emits exactly the
maximal runs of True, in order. -/

/-- Number of leading `true` entries of a boolean list. -/
def leadTrue : List Bool → ℕ
  | [] => 0
  | false :: _ => 0
  | true :: rest => leadTrue rest + 1

/-- `[s, e)` is a maximal run of `true` in `l`: nonempty, within bounds,
all-true, and not extendable on either side. -/
def IsMaxRun (l : List Bool) (s e : ℕ) : Prop :=
  s < e ∧ e ≤ l.length ∧ (∀ j, j < e → s ≤ j → l.getD j false = true) ∧
  (s = 0 ∨ l.getD (s - 1) false = false) ∧ (e = l.length ∨ l.getD e false = false)

instance (l : List Bool) (s e : ℕ) : Decidable (IsMaxRun l s e) := by
  unfold IsMaxRun
  infer_instance

theorem getD_drop (l : List Bool) (n m : ℕ) :
    (l.drop n).getD m false = l.getD (n + m) false := by
  simp [List.getD_eq_getElem?_getD, List.getElem?_drop]

theorem leadTrue_le (l : List Bool) : leadTrue l ≤ l.length := by
  induction l with
  | nil => simp [leadTrue]
  | cons b rest ih =>
    cases b
    · simp [leadTrue]
    · simp only [leadTrue, List.length_cons]
      omega


theorem leadTrue_spec (l : List Bool) : ∀ j, j < leadTrue l → l.getD j false = true := by
  induction l with
  | nil => simp [leadTrue]
  | cons b rest ih =>
    intro j hj
    cases b with
    | false => simp [leadTrue] at hj
    | true =>
      cases j with
      | zero => rfl
      | succ j' =>
        simp only [leadTrue] at hj
        simpa using ih j' (by omega)

theorem leadTrue_boundary (l : List Bool) :
    leadTrue l = l.length ∨ l.getD (leadTrue l) false = false := by
  induction l with
  | nil => left; rfl
  | cons b rest ih =>
    cases b with
    | false => right; rfl
    | true =>
      rcases ih with h | h
      · left; simp [leadTrue, h]
      · right; simpa [leadTrue] using h

theorem runsAux_shift (l : List Bool) : ∀ (i : ℕ) (cur : Option ℕ),
    runsAux l (i + 1) (cur.map (· + 1)) =
      (runsAux l i cur).map (fun p => (p.1 + 1, p.2 + 1)) := by
  induction l with
  | nil =>
    intro i cur
    cases cur <;> simp [runsAux]
  | cons b rest ih =>
    intro i cur
    cases cur with
    | none =>
      cases b
      · simpa [runsAux] using ih (i + 1) none
      · simpa [runsAux] using ih (i + 1) (some i)
    | some s =>
      cases b
      · simpa [runsAux] using ih (i + 1) none
      · simpa [runsAux] using ih (i + 1) (some s)

theorem runs_shift (l : List Bool) (m : ℕ) :
    runsAux l m none = (runs l).map (fun p => (p.1 + m, p.2 + m)) := by
  induction m with
  | zero => simp [runs]
  | succ k ih =>
    have h1 : runsAux l (k + 1) none =
        (runsAux l k none).map (fun p => (p.1 + 1, p.2 + 1)) := by
      simpa using runsAux_shift l k none
    rw [h1, ih, List.map_map]
    apply List.map_congr_left
    intro p _
    simp only [Function.comp_apply, Prod.mk.injEq]
    omega

theorem runsAux_some (l : List Bool) : ∀ (i s : ℕ),
    runsAux l i (some s) =
      (s, i + leadTrue l) :: runsAux (l.drop (leadTrue l + 1)) (i + leadTrue l + 1) none := by
  induction l with
  | nil =>
    intro i s
    simp [runsAux, leadTrue]
  | cons b rest ih =>
    intro i s
    cases b with
    | false =>
      simp [runsAux, leadTrue]
    | true =>
      show runsAux rest (i + 1) (some s) = _
      rw [ih (i + 1) s]
      have h1 : i + 1 + leadTrue rest = i + leadTrue (true :: rest) := by
        simp [leadTrue]; omega
      have h2 : (true :: rest).drop (leadTrue (true :: rest) + 1) =
          rest.drop (leadTrue rest + 1) := by
        simp [leadTrue]
      rw [h2] at *
      congr 1
      · rw [h1]
      · rw [show i + 1 + leadTrue rest + 1 = i + leadTrue (true :: rest) + 1 by
          simp [leadTrue]; omega]

theorem runs_cons_false (rest : List Bool) :
    runs (false :: rest) = (runs rest).map (fun p => (p.1 + 1, p.2 + 1)) := by
  show runsAux rest 1 none = _
  exact runs_shift rest 1

theorem runs_cons_true (rest : List Bool) :
    runs (true :: rest) = (0, leadTrue rest + 1) ::
      (runs (rest.drop (leadTrue rest + 1))).map
        (fun p => (p.1 + (leadTrue rest + 2), p.2 + (leadTrue rest + 2))) := by
  show runsAux rest 1 (some 0) = _
  rw [runsAux_some rest 1 0, runs_shift]
  congr 1
  · rw [Prod.mk.injEq]
    omega
  · apply List.map_congr_left
    intro p _
    rw [Prod.mk.injEq]
    omega

theorem isMaxRun_cons_false (rest : List Bool) (s e : ℕ) :
    IsMaxRun (false :: rest) s e ↔
      ∃ a b, s = a + 1 ∧ e = b + 1 ∧ IsMaxRun rest a b := by
  constructor
  · rintro ⟨h1, h2, h3, h4, h5⟩
    have hs : s ≠ 0 := by
      intro h0
      subst h0
      have := h3 0 h1 (Nat.le_refl 0)
      simp [List.getD_cons_zero] at this
    obtain ⟨a, rfl⟩ : ∃ a, s = a + 1 := ⟨s - 1, by omega⟩
    obtain ⟨b, rfl⟩ : ∃ b, e = b + 1 := ⟨e - 1, by omega⟩
    refine ⟨a, b, rfl, rfl, by omega, by simpa using h2, ?_, ?_, ?_⟩
    · intro j hj hsj
      have := h3 (j + 1) (by omega) (by omega)
      simpa using this
    · rcases h4 with h4 | h4
      · omega
      · cases a with
        | zero => exact Or.inl rfl
        | succ a' =>
          right
          simpa using h4
    · rcases h5 with h5 | h5
      · left
        simpa using h5
      · right
        simpa using h5
  · rintro ⟨a, b, rfl, rfl, h1, h2, h3, h4, h5⟩
    refine ⟨by omega, by simpa using h2, ?_, ?_, ?_⟩
    · intro j hj hsj
      cases j with
      | zero => omega
      | succ j' =>
        have := h3 j' (by omega) (by omega)
        simpa using this
    · right
      cases a with
      | zero => rfl
      | succ a' =>
        rcases h4 with h4 | h4
        · omega
        · simpa using h4
    · rcases h5 with h5 | h5
      · left
        simp [h5]
      · right
        simpa using h5

theorem isMaxRun_cons_true (rest : List Bool) (s e : ℕ) :
    IsMaxRun (true :: rest) s e ↔
      (s = 0 ∧ e = leadTrue rest + 1) ∨
      (∃ a b, s = a + (leadTrue rest + 2) ∧ e = b + (leadTrue rest + 2) ∧
        IsMaxRun (rest.drop (leadTrue rest + 1)) a b) := by
  set t := leadTrue rest with ht
  have hlead : ∀ j, j ≤ t → (true :: rest).getD j false = true := by
    intro j hj
    cases j with
    | zero => rfl
    | succ j' =>
      have : j' < t := by omega
      simpa using leadTrue_spec rest j' this
  have htl : t ≤ rest.length := leadTrue_le rest
  have hdlen : (rest.drop (t + 1)).length = rest.length - (t + 1) := by simp
  have hdget : ∀ m, (rest.drop (t + 1)).getD m false = (true :: rest).getD (m + t + 2) false := by
    intro m
    rw [getD_drop]
    have : t + 1 + m = (m + t + 1) := by omega
    rw [this]
    simp
  constructor
  · rintro ⟨h1, h2, h3, h4, h5⟩
    by_cases hs : s = 0
    · subst hs
      left
      refine ⟨rfl, ?_⟩
      have hle : e ≤ t + 1 := by
        by_contra hgt
        push_neg at hgt
        have htrue := h3 (t + 1) (by omega) (by omega)
        rcases leadTrue_boundary rest with hb | hb
        · rw [← ht] at hb
          simp [hb] at h2
          omega
        · rw [← ht] at hb
          have : (true :: rest).getD (t + 1) false = false := by simpa using hb
          rw [htrue] at this
          cases this
      have hge : t + 1 ≤ e := by
        by_contra hlt
        push_neg at hlt
        rcases h5 with h5 | h5
        · simp at h5
          omega
        · have := hlead e (by omega)
          rw [this] at h5
          cases h5
      omega
    · right
      rcases h4 with h4 | h4
      · exact absurd h4 hs
      have hst : t + 2 ≤ s := by
        by_contra hlt
        push_neg at hlt
        have := hlead (s - 1) (by omega)
        rw [this] at h4
        cases h4
      refine ⟨s - (t + 2), e - (t + 2), by omega, by omega, by omega, ?_, ?_, ?_, ?_⟩
      · rw [hdlen]
        simp at h2
        omega
      · intro j hj hsj
        rw [hdget j]
        exact h3 (j + t + 2) (by omega) (by omega)
      · rcases Nat.eq_zero_or_pos (s - (t + 2)) with h0 | h0
        · exact Or.inl h0
        · right
          rw [hdget (s - (t + 2) - 1)]
          have : s - (t + 2) - 1 + t + 2 = s - 1 := by omega
          rw [this]
          exact h4
      · rcases h5 with h5 | h5
        · left
          rw [hdlen]
          simp at h5
          omega
        · right
          rw [hdget (e - (t + 2))]
          have : e - (t + 2) + t + 2 = e := by omega
          rw [this]
          exact h5
  · rintro (⟨rfl, rfl⟩ | ⟨a, b, rfl, rfl, h1, h2, h3, h4, h5⟩)
    · refine ⟨by omega, by simp; omega, ?_, Or.inl rfl, ?_⟩
      · intro j hj _
        exact hlead j (by omega)
      · rcases leadTrue_boundary rest with hb | hb
        · rw [← ht] at hb
          left
          simp [hb]
        · rw [← ht] at hb
          right
          simpa using hb
    · have hblen : b ≤ rest.length - (t + 1) := by
        rw [hdlen] at h2
        exact h2
      have hrl : t + 1 ≤ rest.length := by
        by_cases hc : t + 1 ≤ rest.length
        · exact hc
        · exfalso
          push_neg at hc
          omega
      refine ⟨by omega, by simp; omega, ?_, ?_, ?_⟩
      · intro j hj hsj
        have hj2 : j - (t + 2) < b := by omega
        have hj3 : a ≤ j - (t + 2) := by omega
        have := h3 (j - (t + 2)) hj2 hj3
        rw [hdget] at this
        have harith : j - (t + 2) + t + 2 = j := by omega
        rw [harith] at this
        exact this
      · right
        rcases Nat.eq_zero_or_pos a with h0 | h0
        · subst h0
          rcases leadTrue_boundary rest with hb | hb
          · rw [← ht] at hb
            omega
          · rw [← ht] at hb
            rw [show (0 : ℕ) + (t + 2) - 1 = t + 1 by omega]
            simpa using hb
        · rcases h4 with h4 | h4
          · omega
          · rw [hdget] at h4
            have : a - 1 + t + 2 = a + (t + 2) - 1 := by omega
            rw [this] at h4
            exact h4
      · rcases h5 with h5 | h5
        · left
          rw [hdlen] at h5
          simp
          omega
        · right
          rw [hdget] at h5
          have : b + t + 2 = b + (t + 2) := by omega
          rw [this] at h5
          exact h5

theorem isMaxRun_nil (s e : ℕ) : ¬ IsMaxRun [] s e := by
  rintro ⟨h1, h2, _, _, _⟩
  simp at h2
  omega

theorem mem_runs_aux : ∀ (n : ℕ) (l : List Bool), l.length ≤ n → ∀ s e,
    ((s, e) ∈ runs l ↔ IsMaxRun l s e) := by
  intro n
  induction n with
  | zero =>
    intro l hl s e
    have : l = [] := List.eq_nil_of_length_eq_zero (by omega)
    subst this
    simp only [runs, runsAux, List.not_mem_nil, false_iff]
    exact isMaxRun_nil s e
  | succ n ih =>
    intro l hl s e
    match l with
    | [] =>
      simp only [runs, runsAux, List.not_mem_nil, false_iff]
      exact isMaxRun_nil s e
    | false :: rest =>
      rw [runs_cons_false, isMaxRun_cons_false]
      have hr : rest.length ≤ n := by
        simp at hl
        omega
      constructor
      · intro hm
        rw [List.mem_map] at hm
        obtain ⟨⟨a, b⟩, hab, heq⟩ := hm
        rw [Prod.mk.injEq] at heq
        exact ⟨a, b, heq.1.symm, heq.2.symm, (ih rest hr a b).mp hab⟩
      · rintro ⟨a, b, rfl, rfl, h⟩
        rw [List.mem_map]
        exact ⟨(a, b), (ih rest hr a b).mpr h, rfl⟩
    | true :: rest =>
      rw [runs_cons_true, isMaxRun_cons_true]
      have hr : (rest.drop (leadTrue rest + 1)).length ≤ n := by
        simp at hl ⊢
        omega
      simp only [List.mem_cons, List.mem_map, Prod.mk.injEq]
      constructor
      · rintro (heq | ⟨⟨a, b⟩, hab, heq⟩)
        · exact Or.inl heq
        · exact Or.inr ⟨a, b, heq.1.symm, heq.2.symm,
            (ih (rest.drop (leadTrue rest + 1)) hr a b).mp hab⟩
      · rintro (⟨rfl, rfl⟩ | ⟨a, b, rfl, rfl, h⟩)
        · exact Or.inl ⟨rfl, rfl⟩
        · exact Or.inr ⟨(a, b), (ih (rest.drop (leadTrue rest + 1)) hr a b).mpr h, rfl, rfl⟩

/-- The run-tracking scan of the source code emits exactly the maximal
runs of True, with exclusive end index. -/
theorem mem_runs (l : List Bool) (s e : ℕ) : (s, e) ∈ runs l ↔ IsMaxRun l s e :=
  mem_runs_aux l.length l (Nat.le_refl _) s e

/-- Two maximal runs covering the same position coincide. -/
theorem isMaxRun_unique (l : List Bool) (s e s' e' j : ℕ)
    (h : IsMaxRun l s e) (h' : IsMaxRun l s' e') (hj1 : s ≤ j) (hj2 : j < e)
    (hj1' : s' ≤ j) (hj2' : j < e') : s = s' ∧ e = e' := by
  obtain ⟨h1, h2, h3, h4, h5⟩ := h
  obtain ⟨h1', h2', h3', h4', h5'⟩ := h'
  have hs : ∀ (x y : ℕ), x ≤ j → (∀ i, i < e → x ≤ i → l.getD i false = true) →
      y ≤ j → (y = 0 ∨ l.getD (y - 1) false = false) → ¬ x < y := by
    intro x y hx hall hy hbound hlt
    rcases hbound with hb | hb
    · omega
    · have := hall (y - 1) (by omega) (by omega)
      rw [this] at hb
      cases hb
  constructor
  · rcases Nat.lt_trichotomy s s' with hlt | heq | hgt
    · exact absurd hlt (hs s s' hj1 h3 hj1' h4')
    · exact heq
    · exfalso
      rcases h4 with hb | hb
      · omega
      · have := h3' (s - 1) (by omega) (by omega)
        rw [this] at hb
        cases hb
  · rcases Nat.lt_trichotomy e e' with hlt | heq | hgt
    · exfalso
      rcases h5 with hb | hb
      · omega
      · have := h3' e (by omega) (by omega)
        rw [this] at hb
        cases hb
    · exact heq
    · exfalso
      rcases h5' with hb | hb
      · omega
      · have := h3 e' (by omega) (by omega)
        rw [this] at hb
        cases hb

/-! C5: the sustained-low sub-flag of the drift detector. -/

/-- C5: the sustained-low sub-flag of `drift_window_mask` flags a
position of a maximal run of finite below-threshold values exactly when
the run's length strictly exceeds k_low; with defaults at a 5-minute
interval (k_low = 96), 97 consecutive values of 50 mg/dL make the whole
drift mask True, while exactly 96 consecutive low values leave it
all-False. -/
theorem sustained_low_iff :
    (∀ (g : Series) (low : ℚ) (k_low s e j : ℕ),
      IsMaxRun (belowMask g low) s e → s ≤ j → j < e →
      ((sustained_low_flags g low k_low).getD j false = true ↔ k_low < e - s)) ∧
    drift_window_mask (List.replicate 97 (some 50)) 24 70 8 5 = List.replicate 97 true ∧
    drift_window_mask (List.replicate 96 (some 50)) 24 70 8 5 = List.replicate 96 false := by
  refine ⟨?_, by decide, by decide⟩
  intro g low k s e j hrun hs hj
  have hlen : (belowMask g low).length = g.length := by simp [belowMask]
  have hjn : j < g.length := by
    have h2 := hrun.2.1
    omega
  simp only [sustained_low_flags]
  rw [getD_rangeMap _ g.length j false hjn, List.any_eq_true]
  constructor
  · rintro ⟨⟨s', e'⟩, hmem, hp⟩
    simp only [Bool.and_eq_true, decide_eq_true_eq] at hp
    obtain ⟨hk, hs', hj'⟩ := hp
    have hrun' := (mem_runs _ s' e').mp hmem
    obtain ⟨hseq, heeq⟩ := isMaxRun_unique _ s e s' e' j hrun hrun' hs hj hs' hj'
    omega
  · intro hk
    refine ⟨(s, e), (mem_runs _ s e).mpr hrun, ?_⟩
    simp only [Bool.and_eq_true, decide_eq_true_eq]
    exact ⟨hk, hs, hj⟩

/-- Witness for the C5 general sub-flag statement at a concrete run. -/
theorem sustained_low_iff_witness :
    (sustained_low_flags [some 50, some 50, some 50] 70 2).getD 0 false = true :=
  (sustained_low_iff.1 [some 50, some 50, some 50] 70 2 0 3 0 (by decide) (by decide)
    (by decide)).mpr (by decide)

/-! C6: the long-gap detector flags exactly the long NaN runs plus their
clipped lead-in windows. -/

/-- C6: `long_nan_run_mask` is True at position j exactly when some
maximal run [s, e) of missing values has length at least k_gap and
either contains j or has j in the k_prior positions immediately
preceding its start (clipped at the series start via truncated
subtraction); positions belonging only to shorter missing runs stay
False. -/
theorem long_gap_characterization (g : Series) (dropout_min prior_hr interval_min j : ℕ)
    (hj : j < g.length) :
    ((long_nan_run_mask g dropout_min prior_hr interval_min).getD j false = true ↔
      ∃ s e, IsMaxRun (g.map (fun v => v.isNone)) s e ∧
        gap_k dropout_min interval_min ≤ e - s ∧
        ((s ≤ j ∧ j < e) ∨ (s - prior_k prior_hr interval_min ≤ j ∧ j < s))) := by
  simp only [long_nan_run_mask]
  rw [getD_rangeMap _ g.length j false hj, List.any_eq_true]
  constructor
  · rintro ⟨⟨s, e⟩, hmem, hp⟩
    simp only [Bool.and_eq_true, Bool.or_eq_true, decide_eq_true_eq] at hp
    exact ⟨s, e, (mem_runs _ s e).mp hmem, hp.1, hp.2⟩
  · rintro ⟨s, e, hrun, hk, hcov⟩
    refine ⟨(s, e), (mem_runs _ s e).mpr hrun, ?_⟩
    simp only [Bool.and_eq_true, Bool.or_eq_true, decide_eq_true_eq]
    exact ⟨hk, hcov⟩

/-- Witness for C6 on a six-sample missing run at default parameters. -/
theorem long_gap_characterization_witness :
    (long_nan_run_mask (List.replicate 6 (none : Option ℚ)) 30 1 5).getD 0 false = true :=
  (long_gap_characterization (List.replicate 6 none) 30 1 5 0 (by decide)).mpr
    ⟨0, 6, by decide, by decide, by decide⟩

end CGM
